import Mathlib

/-!
# Verification of the AD9106 AWG data pipeline and protocol session

A shallow embedding of `tools/awg_ad9106.py` (class `AWG_AD9106`).  Python
floats are modelled as exact rationals (`ℚ`), Python unbounded integers as
`ℤ`/`ℕ`, byte strings as `List Nat` (one entry per byte), and fallible code
as `Except`/`Option`.  Each definition mirrors one function of the source.
-/

namespace AWG

/-- Python runtime errors that the embedded code can raise. -/
inductive PyError
  /-- The explicit `raise IndexError(...)` in `_weightedAverageChannels`
  for a selected column `≥ len(channels)`; carries the offending index. -/
  | indexOutOfRange (sel : ℤ)
  /-- An implicit `IndexError` from Python list indexing or assignment. -/
  | indexError
  deriving Repr, DecidableEq

/-- `AWG_AD9106.MAX_SRAM_SAMPLES`. -/
def MAX_SRAM_SAMPLES : ℕ := 4096

/-- `AWG_AD9106.MAX_SRAM_VALUE`. -/
def MAX_SRAM_VALUE : ℤ := 511

/-! ## Quantizer (`_normalizedValuesToRegisterValues`) -/

/-- Python's built-in `round` (round-half-to-even) on an exact rational,
as used by `round(x, 0)` in `_normalizedValuesToRegisterValues`. -/
def pythonRound (q : ℚ) : ℤ :=
  if q - (⌊q⌋ : ℚ) < 1/2 then ⌊q⌋
  else if 1/2 < q - (⌊q⌋ : ℚ) then ⌊q⌋ + 1
  else if ⌊q⌋ % 2 = 0 then ⌊q⌋ else ⌊q⌋ + 1

/-- The per-value body of `_normalizedValuesToRegisterValues`:
`max(0, min(511, int(round((v + 1.0) * 511 / 2.0, 0))))`. -/
def normalizedToRegister (v : ℚ) : ℤ :=
  max 0 (min MAX_SRAM_VALUE (pythonRound ((v + 1) * 511 / 2)))

/-- `AWG_AD9106._normalizedValuesToRegisterValues`. -/
def normalizedValuesToRegisterValues (normValues : List ℚ) : List ℤ :=
  normValues.map normalizedToRegister

/-! ## Command encoder (`convertNumbersToZCommands`) and a decoder -/

/-- Clamping done per value inside `convertNumbersToZCommands`:
`max(0, min(AWG_AD9106.MAX_SRAM_VALUE, int(value)))`. -/
def zClamp (v : ℤ) : ℤ :=
  max 0 (min MAX_SRAM_VALUE v)

/-- ASCII bytes of `f"{n:02d}"`, valid for `n ≤ 99` (block index `≤ 63`). -/
def pad2 (n : ℕ) : List ℕ :=
  [48 + n / 10, 48 + n % 10]

/-- ASCII bytes of `f"{v:03d}"`, valid for `v ≤ 999` (register value `≤ 511`). -/
def pad3 (v : ℕ) : List ℕ :=
  [48 + v / 100, 48 + v / 10 % 10, 48 + v % 10]

/-- The three ASCII digit bytes emitted for one input value. -/
def encValue (v : ℤ) : List ℕ :=
  pad3 (zClamp v).toNat

/-- The loop of `convertNumbersToZCommands` (lines 363-377): `i` is the
current index, `n` the total (already truncated) length, `buf` the
`z_command` byte buffer under construction, `out` the commands emitted so
far.  A block header `'Z' + f"{i // 64:02d}"` starts each block of 64; the
`\r\n` terminator closes a block at index `i % 64 == 63` or at the final
value. -/
def convertGo (n : ℕ) : List ℤ → ℕ → List ℕ → List (List ℕ) → List (List ℕ)
  | [], _, _, out => out
  | v :: rest, i, buf, out =>
    let buf1 := if i % 64 = 0 then [90] ++ pad2 (i / 64) else buf
    let buf2 := buf1 ++ encValue v
    if i % 64 = 63 ∨ i = n - 1 then
      convertGo n rest (i + 1) [] (out ++ [buf2 ++ [13, 10]])
    else
      convertGo n rest (i + 1) buf2 out

/-- `AWG_AD9106.convertNumbersToZCommands`: truncate to the SRAM capacity,
then run the encoding loop.  (In the source the truncation slice only runs
when the list is longer than 4096; `take` is the same operation.) -/
def convertNumbersToZCommands (valuesInput : List ℤ) : List (List ℕ) :=
  let values := valuesInput.take MAX_SRAM_SAMPLES
  convertGo values.length values 0 [] []

/-- Parse consecutive 3-digit ASCII decimal groups back into values.
Modelled from the spec: the framed-command format of section 4.9 (one
3-digit zero-padded decimal per value); no decoder exists in the source. -/
def parse3 : List ℕ → List ℤ
  | a :: b :: c :: rest =>
    (((a - 48) * 100 + (b - 48) * 10 + (c - 48) : ℕ) : ℤ) :: parse3 rest
  | _ => []

/-- Decode one framed Z-command.  Modelled from the spec: drop the 1-byte
tag and the 2-digit block index, drop the trailing CRLF, and parse the
3-digit value groups. -/
def decodeZCommand (cmd : List ℕ) : List ℤ :=
  parse3 ((cmd.drop 3).dropLast.dropLast)

/-- Decode a sequence of framed Z-commands into the value list they carry. -/
def decodeZCommands (cmds : List (List ℕ)) : List ℤ :=
  (cmds.map decodeZCommand).flatten

/-! ## Scaling stage (`_applyScaling`) -/

/-- `AWG_AD9106._applyScaling` (lines 547-562).  `min()`/`max()` of an
empty Python list raise `ValueError`; the empty case is modelled as `none`.
Note the source guards the auto multiplier with
`minValue != 0 and maxValue != 0`, not with `peak != 0`. -/
def applyScaling (doScaleAuto : Bool) (scaleMultiplier : ℚ) :
    List ℚ → Option (List ℚ)
  | [] => none
  | v :: rest =>
    let minValue := rest.foldl min v
    let maxValue := rest.foldl max v
    let autoMultiplier :=
      if minValue ≠ 0 ∧ maxValue ≠ 0 then 1 / max |minValue| |maxValue| else 1
    let normValues1 :=
      if doScaleAuto then (v :: rest).map (fun item => autoMultiplier * item)
      else v :: rest
    some (normValues1.map (fun item => scaleMultiplier * item))

/-! ## Channel combiner (`_weightedAverageChannels` and helpers) -/

/-- `AWG_AD9106._copyListAndForceLength` (called with a non-`None` list):
copy, pad with `fillValue` up to `len`, truncate to `len`. -/
def copyListAndForceLength (listInput : List α) (len : ℕ) (fillValue : α) :
    List α :=
  let listOutput :=
    if listInput.length < len then
      listInput ++ List.replicate (len - listInput.length) fillValue
    else listInput
  listOutput.take len

/-- `AWG_AD9106._normalizeValue`: map `value` linearly from `channelRange`
onto `[-1, 1]`, clamping; a missing/short range means the default
`[-1, 1]`; a reversed range is swapped; a degenerate range yields 0. -/
def normalizeValue (value : ℚ) (channelRange : Option (List ℚ)) : ℚ :=
  let cr : List ℚ := match channelRange with
    | none => [-1, 1]
    | some r => if r.length < 2 then [-1, 1] else r
  let lo := if cr.getD 0 0 > cr.getD 1 0 then cr.getD 1 0 else cr.getD 0 0
  let hi := if cr.getD 0 0 > cr.getD 1 0 then cr.getD 0 0 else cr.getD 1 0
  if hi - lo = 0 then 0
  else max (-1) (min 1 ((value - lo) * 2 / (hi - lo) + -1))

/-- Python list assignment `l[i] = v` with a possibly negative index:
a negative `i` counts from the end; out-of-range assignment raises
`IndexError`, modelled as `none`. -/
def pySet (l : List α) (i : ℤ) (v : α) : Option (List α) :=
  let j := if i < 0 then i + l.length else i
  if 0 ≤ j ∧ j < l.length then some (l.set j.toNat v) else none

/-- The `columnWeights` setup of `_weightedAverageChannels`
(lines 462-473): a selected column becomes a one-hot weight vector (after
an explicit range check against `len(channels)` that ignores negative
indices); otherwise the stored weights are copied, an empty list defaulting
to weight 1.0 for every channel. -/
def resolveWeights (columnSelected : Option ℤ) (storedWeights : List ℚ)
    (numChannels : ℕ) : Except PyError (List ℚ) :=
  match columnSelected with
  | some sel =>
    if sel ≥ (numChannels : ℤ) then .error (.indexOutOfRange sel)
    else
      match pySet (List.replicate numChannels (0 : ℚ)) sel 1 with
      | none => .error .indexError
      | some w => .ok w
  | none =>
    if storedWeights.length = 0 then
      .ok (copyListAndForceLength storedWeights numChannels 1)
    else .ok storedWeights

/-- One pass of the inner `j` loop of `_weightedAverageChannels`
(lines 488-493) at output index `i`: the guard in the source is
`0.0 if j >= len(channels) else channels[j][i]`, so `j` is never out of
range and `channels[j][i]` raises `IndexError` whenever channel `j` is
shorter than `i + 1`. -/
def rowSum : List (List ℚ) → List ℚ → List (Option (List ℚ)) → ℕ →
    Except PyError ℚ
  | [], _, _, _ => .ok 0
  | ch :: chs, w :: ws, r :: rs, i =>
    match ch.get? i with
    | none => .error .indexError
    | some value =>
      match rowSum chs ws rs i with
      | .error e => .error e
      | .ok rest => .ok (w * normalizeValue value r + rest)
  | _ :: _, _, _, _ => .error .indexError

/-- The outer `i` loop of `_weightedAverageChannels` (lines 486-498). -/
def weightedLoop (channels : List (List ℚ)) (weights : List ℚ)
    (ranges : List (Option (List ℚ))) (weightTotal : ℚ) :
    List ℕ → Except PyError (List ℚ)
  | [] => .ok []
  | i :: is =>
    match rowSum channels weights ranges i with
    | .error e => .error e
    | .ok s =>
      match weightedLoop channels weights ranges weightTotal is with
      | .error e => .error e
      | .ok rest =>
        .ok ((if weightTotal > 0 then s / weightTotal else 0) :: rest)

/-- `AWG_AD9106._weightedAverageChannels` (lines 446-500). -/
def weightedAverageChannels (columnSelected : Option ℤ)
    (storedWeights : List ℚ) (channels : List (List ℚ))
    (channelRanges : List (Option (List ℚ))) : Except PyError (List ℚ) :=
  let maxChannelLength := channels.foldl (fun m c => max m c.length) 0
  match resolveWeights columnSelected storedWeights channels.length with
  | .error e => .error e
  | .ok w0 =>
    let weights := copyListAndForceLength w0 channels.length 0
    let weightTotal := weights.foldl (fun t x => t + |x|) 0
    let ranges := copyListAndForceLength channelRanges channels.length none
    weightedLoop channels weights ranges weightTotal
      (List.range maxChannelLength)

/-! ## Channel extractors (`loadNumbersFromCSV` row window,
`loadNumbersFromWAV`, `_loadNumbersFromMultiByteWAV`) -/

/-- The row-window loop of `loadNumbersFromCSV` (lines 225-234): `rc` is
`rowCount`; rows with `rowCount < startingRowToRead` are skipped; the
loop breaks once the incremented count exceeds `start + maxRows`. -/
def windowRows (start maxRows : ℕ) : List α → ℕ → List α
  | [], _ => []
  | row :: rest, rc =>
    if rc < start then windowRows start maxRows rest (rc + 1)
    else if rc + 1 > start + maxRows then []
    else row :: windowRows start maxRows rest (rc + 1)

/-- The per-byte normalization of the 1-byte-per-sample branch of
`loadNumbersFromWAV` (lines 272, 284): `DIVISOR = MAX_SRAM_VALUE / 4.0`
(that is `511 / 4 = 127.75`) and each byte maps to
`int(value) / DIVISOR - 1.0`. -/
def sample8ToFloat (value : ℕ) : ℚ :=
  (value : ℚ) / (511 / 4) - 1

/-- Append one sample to channel `j` (`channels[j].append(...)`); in every
reachable call `j < channels.length`. -/
def appendAt (chans : List (List ℚ)) (j : ℕ) (v : ℚ) : List (List ℚ) :=
  chans.set j (chans.getD j [] ++ [v])

/-- The 1-byte-per-sample loop of `loadNumbersFromWAV` (lines 273-285):
`j` is the channel cursor, `rc` the `rowCount`.  Note the source counts
every byte (sample) in `rowCount`, not whole frames, and `j` only advances
when a sample is appended. -/
def load8Go (start maxRows numChannels : ℕ) :
    List ℕ → ℕ → ℕ → List (List ℚ) → List (List ℚ)
  | [], _, _, chans => chans
  | value :: rest, j, rc, chans =>
    if rc < start then load8Go start maxRows numChannels rest j (rc + 1) chans
    else if rc + 1 > start + maxRows then chans
    else
      load8Go start maxRows numChannels rest ((j + 1) % numChannels) (rc + 1)
        (appendAt chans j (sample8ToFloat value))

/-- The 1-byte-per-sample branch of `loadNumbersFromWAV`, starting from
`numChannels` empty channels. -/
def load8 (start maxRows numChannels : ℕ) (frameBytes : List ℕ) :
    List (List ℚ) :=
  load8Go start maxRows numChannels frameBytes 0 0
    (List.replicate numChannels [])

/-- The loop of `_loadNumbersFromMultiByteWAV` (lines 316-341): `i` is the
byte index, `cv` the accumulated `currentValue` (non-negative until the
final sign adjustment, so carried as `ℕ`), `rc` the `rowCount` (counted
per frame: it advances at the last byte of the last channel). -/
def loadMultiGo (start maxRows width numChannels : ℕ) :
    List ℕ → ℕ → ℕ → ℕ → List (List ℚ) → List (List ℚ)
  | [], _, _, _, chans => chans
  | b :: rest, i, cv, rc, chans =>
    let channel := (i / width) % numChannels
    let byteIndex := i % width
    let isFirstByte := byteIndex = 0
    let isLastByte := byteIndex = width - 1
    let bump := isLastByte ∧ channel = numChannels - 1
    if rc < start then
      loadMultiGo start maxRows width numChannels rest (i + 1) cv
        (if bump then rc + 1 else rc) chans
    else
      let rc2 := if bump then rc + 1 else rc
      if rc2 > start + maxRows then chans
      else if isFirstByte then
        loadMultiGo start maxRows width numChannels rest (i + 1)
          (b &&& 0xFF) rc2 chans
      else if isLastByte then
        let cv2 := cv ||| ((b &&& 0x7F) <<< (8 * byteIndex))
        let zeroOffset : ℤ := 2 ^ (width * 8 - 1)
        let signedValue : ℤ :=
          if b &&& 0x80 ≠ 0 then (cv2 : ℤ) - zeroOffset else (cv2 : ℤ)
        loadMultiGo start maxRows width numChannels rest (i + 1) cv2 rc2
          (appendAt chans channel ((signedValue : ℚ) / (zeroOffset : ℚ)))
      else
        loadMultiGo start maxRows width numChannels rest (i + 1)
          (cv ||| (b <<< (8 * byteIndex))) rc2 chans

/-- `AWG_AD9106._loadNumbersFromMultiByteWAV`, starting from `numChannels`
empty channels as `loadNumbersFromWAV` does. -/
def loadMulti (start maxRows width numChannels : ℕ) (frameBytes : List ℕ) :
    List (List ℚ) :=
  loadMultiGo start maxRows width numChannels frameBytes 0 0 0
    (List.replicate numChannels [])

/-! ## Protocol session (`__init__`, `write`, `read`, `sendOverWaitForOver`,
`_writeHandler`) -/

/-- `AWG_AD9106.OVER_R` (`b'OVER'`). -/
def OVER_R : List ℕ := [79, 86, 69, 82]

/-- `AWG_AD9106.EOL` (`b'\r\n'`). -/
def EOL : List ℕ := [13, 10]

/-- `AWG_AD9106.OVER_W` (`b'OVER\r\n'`). -/
def OVER_W : List ℕ := OVER_R ++ EOL

deriving instance DecidableEq for Except

/-- The observable state of an `AWG_AD9106` object: whether a serial
transport is attached (`_ser is not None`), the bytes the attached
transport will answer with on the next read, the logging flags and
`_writeLog`, the `_needsFinalOver` flag, and the bytes actually written to
the device (for stating the no-op property of an absent transport). -/
structure Session where
  serPresent : Bool
  serResponse : List ℕ
  printWriteLog : Bool
  generateWriteLog : Bool
  writeLog : List ℕ
  needsFinalOver : Bool
  deviceWrites : List (List ℕ)
  deriving Repr, DecidableEq

/-- `AWG_AD9106._writeHandler` (lines 416-428): append to the write log if
enabled, write to the device only if a transport is attached (screen
printing has no modelled state). -/
def writeHandler (s : Session) (line : List ℕ) : Session :=
  { s with
    writeLog := if s.generateWriteLog then s.writeLog ++ line else s.writeLog
    deviceWrites :=
      if s.serPresent then s.deviceWrites ++ [line] else s.deviceWrites }

/-- `AWG_AD9106.read` (lines 89-95): with a transport, up to `maxBytes`
bytes of its response; without one, empty bytes. -/
def readBytes (s : Session) (maxBytes : ℕ) : List ℕ :=
  if s.serPresent then s.serResponse.take maxBytes else []

/-- `AWG_AD9106.sendOverWaitForOver` (lines 97-107): clear
`_needsFinalOver`, write `OVER\r\n`, read 4 bytes; raise `TimeoutError`
(carrying the received bytes) only when a transport is attached and the
bytes differ from `OVER`.  The error also carries the session state as it
stands when the exception propagates. -/
def sendOverWaitForOver (s : Session) : Except (List ℕ × Session) Session :=
  let s2 := writeHandler { s with needsFinalOver := false } OVER_W
  let dataRead := readBytes s2 OVER_R.length
  if dataRead ≠ OVER_R ∧ s2.serPresent then .error (dataRead, s2)
  else .ok s2

/-- The command loop of `AWG_AD9106.write` (lines 74-87), applied to
commands already normalized by `_convertCommandsToListOfBytes` (each ends
in `\r\n`): an `OVER\r\n` command becomes the acknowledgment round-trip; a
command starting with `b'Z'` sets `_needsFinalOver`; the `XXX` response
printing and the sleeps change no modelled state. -/
def writeCommands (s : Session) : List (List ℕ) → Except (List ℕ × Session) Session
  | [] => .ok s
  | line :: rest =>
    if line = OVER_W then
      match sendOverWaitForOver s with
      | .error e => .error e
      | .ok s2 => writeCommands s2 rest
    else
      let s1 :=
        if line.head? = some 90 then { s with needsFinalOver := true } else s
      writeCommands (writeHandler s1 line) rest

/-! ## Load parameters (`__init__` defaults and `setLoadParameters`) -/

/-- The load-configuration fields of `AWG_AD9106` (lines 54-63). -/
structure LoadParams where
  columnRanges : List (Option (List ℚ))
  columnSelected : Option ℤ
  columnWeights : List ℚ
  startingRowToRead : ℤ
  maxRowsToRead : ℤ
  maxRowsToWrite : ℤ
  hasCsvHeader : ℤ
  doesPrint : Bool
  doScaleAuto : Bool
  scaleMultiplier : ℚ

/-- `AWG_AD9106.AUTO_DETECT`. -/
def AUTO_DETECT : ℤ := -1

/-- The defaults assigned in `__init__` (lines 54-63). -/
def initParams : LoadParams where
  columnRanges := []
  columnSelected := none
  columnWeights := []
  startingRowToRead := 0
  maxRowsToRead := (MAX_SRAM_SAMPLES : ℤ)
  maxRowsToWrite := (MAX_SRAM_SAMPLES : ℤ)
  hasCsvHeader := AUTO_DETECT
  doesPrint := true
  doScaleAuto := false
  scaleMultiplier := 1

/-- `AWG_AD9106.setLoadParameters` (lines 124-176): every argument is
optional (`none` leaves the stored field unchanged); `maxRowsToRead` and
`maxRowsToWrite` replace the `AUTO_DETECT` sentinel by the SRAM capacity
and clamp explicit values to it. -/
def setLoadParameters (p : LoadParams)
    (startingRowToRead : Option ℤ) (maxRowsToWrite : Option ℤ)
    (maxRowsToRead : Option ℤ) (doScaleAuto : Option Bool)
    (scaleMultiplier : Option ℚ)
    (columnRanges : Option (List (Option (List ℚ))))
    (columnSelected : Option ℤ) (columnWeights : Option (List ℚ))
    (hasCsvHeader : Option ℤ) (doesPrint : Option Bool) : LoadParams :=
  { p with
    columnRanges := columnRanges.getD p.columnRanges
    columnSelected :=
      match columnSelected with
      | none => p.columnSelected
      | some sel => some sel
    columnWeights := columnWeights.getD p.columnWeights
    doScaleAuto := doScaleAuto.getD p.doScaleAuto
    scaleMultiplier := scaleMultiplier.getD p.scaleMultiplier
    hasCsvHeader := hasCsvHeader.getD p.hasCsvHeader
    doesPrint := doesPrint.getD p.doesPrint
    startingRowToRead := startingRowToRead.getD p.startingRowToRead
    maxRowsToRead :=
      match maxRowsToRead with
      | none => p.maxRowsToRead
      | some v =>
        if v = AUTO_DETECT then (MAX_SRAM_SAMPLES : ℤ)
        else min v (MAX_SRAM_SAMPLES : ℤ)
    maxRowsToWrite :=
      match maxRowsToWrite with
      | none => p.maxRowsToWrite
      | some v =>
        if v = AUTO_DETECT then (MAX_SRAM_SAMPLES : ℤ)
        else min v (MAX_SRAM_SAMPLES : ℤ) }

/-! ## Lemmas about the quantizer -/

theorem le_pythonRound (q : ℚ) : ⌊q⌋ ≤ pythonRound q := by
  unfold pythonRound
  split_ifs <;> omega

theorem pythonRound_le (q : ℚ) : pythonRound q ≤ ⌊q⌋ + 1 := by
  unfold pythonRound
  split_ifs <;> omega

theorem pythonRound_mono {x y : ℚ} (h : x ≤ y) :
    pythonRound x ≤ pythonRound y := by
  by_cases hf : ⌊x⌋ = ⌊y⌋
  · have hcast : ((⌊x⌋ : ℤ) : ℚ) = ((⌊y⌋ : ℤ) : ℚ) := by exact_mod_cast hf
    have hr : x - ((⌊y⌋ : ℤ) : ℚ) ≤ y - ((⌊y⌋ : ℤ) : ℚ) := by
      rw [← hcast]; linarith
    unfold pythonRound
    rw [hf]
    split_ifs <;> first | omega | linarith
  · have h1 : ⌊x⌋ < ⌊y⌋ := lt_of_le_of_ne (Int.floor_le_floor h) hf
    have h2 := pythonRound_le x
    have h3 := le_pythonRound y
    omega

/-! ## Lemmas about the command encoder -/

/-- The complete framed command emitted for one block of values. -/
def zBlockCmd (b : ℕ) (chunk : List ℤ) : List ℕ :=
  [90] ++ pad2 b ++ (chunk.map encValue).flatten ++ [13, 10]

theorem zClamp_nonneg (v : ℤ) : 0 ≤ zClamp v := by
  simp [zClamp]

theorem zClamp_le (v : ℤ) : zClamp v ≤ 511 := by
  simp [zClamp, MAX_SRAM_VALUE]

theorem parse3_encValue (v : ℤ) (rest : List ℕ) :
    parse3 (encValue v ++ rest) = zClamp v :: parse3 rest := by
  have h0 := zClamp_nonneg v
  have h1 := zClamp_le v
  have h2 : (zClamp v).toNat < 1000 := by omega
  simp only [encValue, pad3, List.cons_append, List.nil_append, parse3]
  congr 1
  have h3 : (48 + (zClamp v).toNat / 100 - 48) * 100 +
      (48 + (zClamp v).toNat / 10 % 10 - 48) * 10 +
      (48 + (zClamp v).toNat % 10 - 48) = (zClamp v).toNat := by
    omega
  rw [h3]
  omega

theorem parse3_flatten (chunk : List ℤ) (rest : List ℕ) :
    parse3 ((chunk.map encValue).flatten ++ rest) =
      chunk.map zClamp ++ parse3 rest := by
  induction chunk with
  | nil => simp
  | cons v vs ih =>
    simp only [List.map_cons, List.flatten_cons, List.append_assoc]
    rw [parse3_encValue]
    simp [ih]

theorem dropLast_crlf (xs : List ℕ) :
    (xs ++ [13, 10]).dropLast.dropLast = xs := by
  have h : xs ++ [13, 10] = (xs ++ [13]) ++ [10] := by simp
  rw [h, List.dropLast_concat, List.dropLast_concat]

theorem decode_zBlockCmd (b : ℕ) (chunk : List ℤ) :
    decodeZCommand (zBlockCmd b chunk) = chunk.map zClamp := by
  simp only [decodeZCommand, zBlockCmd, pad2, List.cons_append,
    List.nil_append, List.drop_succ_cons, List.drop_zero]
  rw [dropLast_crlf]
  have := parse3_flatten chunk []
  simpa [parse3] using this

theorem decodeZCommands_append (a c : List (List ℕ)) :
    decodeZCommands (a ++ c) = decodeZCommands a ++ decodeZCommands c := by
  simp [decodeZCommands]

/-- Running the encoding loop from the middle of a block (`i % 64 ≠ 0`)
finishes the current block: it consumes values up to the block boundary or
the end of the input, closes the buffer with CRLF, and continues from a
fresh buffer. -/
theorem convertGo_inner (n : ℕ) (vals : List ℤ) :
    ∀ (i : ℕ) (buf : List ℕ) (out : List (List ℕ)),
      n = i + vals.length → vals ≠ [] → i % 64 ≠ 0 →
      convertGo n vals i buf out =
        convertGo n (vals.drop (min (64 - i % 64) vals.length))
          (i + min (64 - i % 64) vals.length) []
          (out ++ [buf ++ ((vals.take (min (64 - i % 64) vals.length)).map
            encValue).flatten ++ [13, 10]]) := by
  induction vals with
  | nil => intro i buf out _ hne _; exact absurd rfl hne
  | cons v rest ih =>
    intro i buf out hn _ hj
    simp only [List.length_cons] at hn
    by_cases hend : i % 64 = 63 ∨ i = n - 1
    · have hm : min (64 - i % 64) (v :: rest).length = 1 := by
        simp only [List.length_cons]
        rcases hend with h63 | hlast
        · omega
        · have h0 : rest.length = 0 := by omega
          omega
      rw [hm]
      simp only [convertGo, if_neg hj, if_pos hend, List.drop_succ_cons,
        List.drop_zero, List.take_succ_cons, List.take_zero,
        List.map_cons, List.map_nil, List.flatten_cons, List.flatten_nil,
        List.append_nil, List.append_assoc]
    · push_neg at hend
      obtain ⟨h63, hlast⟩ := hend
      have hrl : rest.length ≠ 0 := by omega
      have hrest : rest ≠ [] := by
        intro h0
        exact hrl (by simp [h0])
      have hm : min (64 - i % 64) (v :: rest).length =
          min (64 - (i + 1) % 64) rest.length + 1 := by
        simp only [List.length_cons]
        omega
      rw [hm]
      simp only [convertGo, if_neg hj,
        if_neg (by tauto : ¬(i % 64 = 63 ∨ i = n - 1)),
        List.drop_succ_cons, List.take_succ_cons, List.map_cons,
        List.flatten_cons]
      rw [ih (i + 1) (buf ++ encValue v) out (by omega) hrest (by omega)]
      have harith : i + 1 + min (64 - (i + 1) % 64) rest.length =
          i + (min (64 - (i + 1) % 64) rest.length + 1) := by omega
      rw [harith]
      simp only [List.append_assoc]

/-- Running the encoding loop from a block boundary (`i % 64 = 0`) emits
exactly one framed command for the next (at most 64) values. -/
theorem convertGo_block (n : ℕ) (vals : List ℤ) (i : ℕ) (out : List (List ℕ))
    (hn : n = i + vals.length) (hne : vals ≠ []) (hi : i % 64 = 0) :
    convertGo n vals i [] out =
      convertGo n (vals.drop (min 64 vals.length)) (i + min 64 vals.length) []
        (out ++ [zBlockCmd (i / 64) (vals.take (min 64 vals.length))]) := by
  match vals, hne with
  | v :: rest, _ =>
    simp only [List.length_cons] at hn
    by_cases hend : i % 64 = 63 ∨ i = n - 1
    · have hlast : i = n - 1 := by
        rcases hend with h63 | hlast
        · omega
        · exact hlast
      have hr0 : rest.length = 0 := by omega
      have hrest : rest = [] := List.length_eq_zero.mp hr0
      subst hrest
      simp only [convertGo, if_pos hi, if_pos hend, List.length_cons,
        List.length_nil]
      simp [zBlockCmd]
    · push_neg at hend
      obtain ⟨h63, hlast⟩ := hend
      have hrl : rest.length ≠ 0 := by omega
      have hrest : rest ≠ [] := by
        intro h0
        exact hrl (by simp [h0])
      have hm : min 64 (v :: rest).length =
          min (64 - (i + 1) % 64) rest.length + 1 := by
        simp only [List.length_cons]
        omega
      rw [hm]
      simp only [convertGo, if_pos hi,
        if_neg (by tauto : ¬(i % 64 = 63 ∨ i = n - 1)),
        List.drop_succ_cons, List.take_succ_cons, List.map_cons,
        List.flatten_cons]
      rw [convertGo_inner n rest (i + 1) ([90] ++ pad2 (i / 64) ++ encValue v)
        out (by omega) hrest (by omega)]
      have harith : i + 1 + min (64 - (i + 1) % 64) rest.length =
          i + (min (64 - (i + 1) % 64) rest.length + 1) := by omega
      rw [harith]
      simp only [zBlockCmd, List.map_cons, List.flatten_cons,
        List.cons_append, List.nil_append, List.append_assoc]

/-- Decoding what the encoding loop produces from a block boundary yields
the clamped values, after whatever `out` already decodes to. -/
theorem decode_convertGo :
    ∀ (fuel : ℕ) (vals : List ℤ), vals.length ≤ fuel →
      ∀ (i n : ℕ) (out : List (List ℕ)), n = i + vals.length → i % 64 = 0 →
        decodeZCommands (convertGo n vals i [] out) =
          decodeZCommands out ++ vals.map zClamp := by
  intro fuel
  induction fuel with
  | zero =>
    intro vals hL i n out _ _
    have : vals = [] := List.length_eq_zero.mp (by omega)
    subst this
    simp [convertGo]
  | succ fuel ih =>
    intro vals hL i n out hn hi
    by_cases hv : vals = []
    · subst hv; simp [convertGo]
    · rw [convertGo_block n vals i out hn hv hi]
      have hlen : vals.length ≠ 0 := by
        intro h0
        exact hv (List.length_eq_zero.mp h0)
      by_cases hempty : vals.drop (min 64 vals.length) = []
      · rw [hempty]
        have hd0 : (vals.drop (min 64 vals.length)).length = 0 := by
          simp [hempty]
        rw [List.length_drop] at hd0
        have hm : min 64 vals.length = vals.length := by omega
        simp only [convertGo, decodeZCommands_append]
        rw [hm, List.take_length]
        simp [decodeZCommands, decode_zBlockCmd]
      · have hd0 : (vals.drop (min 64 vals.length)).length ≠ 0 := by
          intro h0
          exact hempty (List.length_eq_zero.mp h0)
        rw [List.length_drop] at hd0
        have hmin : min 64 vals.length = 64 := by omega
        rw [ih (vals.drop (min 64 vals.length))
          (by rw [List.length_drop]; omega) (i + min 64 vals.length) n _
          (by rw [List.length_drop]; omega) (by rw [hmin]; omega)]
        rw [decodeZCommands_append]
        have hone : decodeZCommands [zBlockCmd (i / 64)
            (vals.take (min 64 vals.length))] =
            (vals.take (min 64 vals.length)).map zClamp := by
          simp [decodeZCommands, decode_zBlockCmd]
        rw [hone, List.append_assoc, ← List.map_append,
          List.take_append_drop]

theorem pythonRound_intCast (z : ℤ) : pythonRound ((z : ℤ) : ℚ) = z := by
  unfold pythonRound
  rw [Int.floor_intCast]
  norm_num

/-! ## Claim theorems -/

/-- C6: for every list of at most 4096 register values, encoding them into
framed Z-commands (blocks of 64 values, tag `Z`, 2-digit block index,
3-digit zero-padded decimals, CRLF terminator, the final partial block
still terminated) and decoding the frames back recovers exactly the
clamped input values in order. -/
theorem zCommands_roundtrip (valuesInput : List ℤ)
    (h : valuesInput.length ≤ MAX_SRAM_SAMPLES) :
    decodeZCommands (convertNumbersToZCommands valuesInput) =
      valuesInput.map zClamp := by
  unfold convertNumbersToZCommands
  rw [List.take_of_length_le h]
  have := decode_convertGo valuesInput.length valuesInput le_rfl 0
    valuesInput.length [] (by omega) rfl
  simpa [decodeZCommands] using this

/-- Witness for C6 at the concrete input `[5, 600, -3]` (600 clamps to
511, -3 clamps to 0). -/
theorem zCommands_roundtrip_witness :
    ([(5 : ℤ), 600, -3].length ≤ MAX_SRAM_SAMPLES) ∧
    decodeZCommands (convertNumbersToZCommands [(5 : ℤ), 600, -3]) =
      [(5 : ℤ), 600, -3].map zClamp :=
  ⟨by decide, zCommands_roundtrip [5, 600, -3] (by decide)⟩

/-- C5: the quantizer computes `clamp(round((v + 1) * 511 / 2), 0, 511)`
(with Python's round-half-to-even `round`), maps -1.0 to 0, 1.0 to 511 and
0.0 to 256, is monotone non-decreasing, and is total on inputs outside
[-1, 1] (they are clamped). -/
theorem quantizer_correct (v w : ℚ) (h : v ≤ w) :
    normalizedToRegister v =
      max 0 (min 511 (pythonRound ((v + 1) * 511 / 2))) ∧
    normalizedToRegister (-1) = 0 ∧
    normalizedToRegister 1 = 511 ∧
    normalizedToRegister 0 = 256 ∧
    normalizedToRegister v ≤ normalizedToRegister w := by
  refine ⟨rfl, ?_, ?_, ?_, ?_⟩
  · have h0 : ((-1 : ℚ) + 1) * 511 / 2 = ((0 : ℤ) : ℚ) := by norm_num
    rw [normalizedToRegister, h0, pythonRound_intCast]
    rfl
  · have h0 : ((1 : ℚ) + 1) * 511 / 2 = ((511 : ℤ) : ℚ) := by norm_num
    rw [normalizedToRegister, h0, pythonRound_intCast]
    rfl
  · have h0 : ((0 : ℚ) + 1) * 511 / 2 = 511 / 2 := by norm_num
    have hf : ⌊(511 : ℚ) / 2⌋ = 255 := by
      rw [Int.floor_eq_iff]
      norm_num
    have hr : pythonRound ((511 : ℚ) / 2) = 256 := by
      unfold pythonRound
      rw [hf]
      norm_num
    rw [normalizedToRegister, h0, hr]
    rfl
  · have h1 : (v + 1) * 511 / 2 ≤ (w + 1) * 511 / 2 := by linarith
    have h2 := pythonRound_mono h1
    unfold normalizedToRegister MAX_SRAM_VALUE
    omega

/-- Witness for C5 at the concrete inputs `v = 0 ≤ w = 1`. -/
theorem quantizer_correct_witness :
    (0 : ℚ) ≤ 1 ∧
    (normalizedToRegister 0 =
      max 0 (min 511 (pythonRound ((0 + 1) * 511 / 2))) ∧
    normalizedToRegister (-1) = 0 ∧
    normalizedToRegister 1 = 511 ∧
    normalizedToRegister 0 = 256 ∧
    normalizedToRegister 0 ≤ normalizedToRegister 1) :=
  ⟨zero_le_one, quantizer_correct 0 1 zero_le_one⟩

/-- C2: combining the unequal-length channels `[[1, 1], [1]]` (default
weights, default ranges) raises `IndexError` instead of treating the short
channel's missing sample as 0.0, because the guard in the source tests
`j >= len(channels)` (never true) instead of `i >= len(channels[j])`;
on equal-length channels `[1, 1]` and `[-1, -1]` with weights `[1, 1]`
the combiner does return `[0, 0]` as the claim states. -/
theorem combiner_short_channel_raises :
    weightedAverageChannels none [] [[1, 1], [1]] [] =
      .error .indexError ∧
    weightedAverageChannels none [1, 1] [[1, 1], [-1, -1]]
      [some [-1, 1], some [-1, 1]] = .ok [0, 0] := by
  constructor
  · simp [weightedAverageChannels, resolveWeights, copyListAndForceLength,
      weightedLoop, rowSum, List.range_succ]
  · norm_num [weightedAverageChannels, resolveWeights,
      copyListAndForceLength, weightedLoop, rowSum, normalizeValue,
      List.range_succ]

/-- C3: the 8-bit sample normalization divides by `511 / 4 = 127.75`
(not 127.5), so raw byte 128 maps to `1/511 ≈ 0.00196`, not 0.0 (the code
contradicts its own comment `0x80 is 0.0`); raw 0 maps to -1.0 and raw
255 to `509/511 ≈ 0.9961`; the claim's formula `(raw/127.5) - 1.0` gives
a different value at 128 as well. -/
theorem sample8_128_not_zero :
    sample8ToFloat 128 = 1 / 511 ∧
    (1 / 511 : ℚ) ≠ 0 ∧
    sample8ToFloat 0 = -1 ∧
    sample8ToFloat 255 = 509 / 511 ∧
    sample8ToFloat 128 ≠ (128 : ℚ) / (1275 / 10) - 1 := by
  norm_num [sample8ToFloat]

/-- C7: with auto-scale enabled, the values `[0, 1/2]` have peak 1/2 ≠ 0
yet are returned unscaled, because the source guards the auto multiplier
with `minValue != 0 and maxValue != 0` (here `minValue == 0`); the claim
would give `[0, 1]`.  On `[1/4, 1/2]` (both extremes nonzero) the stage
scales by the reciprocal peak as claimed. -/
theorem applyScaling_zero_extreme_skipped :
    applyScaling true 1 [0, 1/2] = some [0, 1/2] ∧
    applyScaling true 1 [0, 1/2] ≠ some [0, 1] ∧
    applyScaling true 1 [1/4, 1/2] = some [1/2, 1] := by
  refine ⟨?_, ?_, ?_⟩
  · norm_num [applyScaling]
  · norm_num [applyScaling]
  · norm_num [applyScaling]
    rw [abs_of_pos (by norm_num : (0 : ℚ) < 1/4),
      abs_of_pos (by norm_num : (0 : ℚ) < 1/2),
      max_eq_right (by norm_num : (1/4 : ℚ) ≤ 1/2)]
    norm_num

/-- C4: the audio row window is not the per-frame window the tabular
loader uses.  For 16-bit stereo frames `(1,2),(3,4)` with start 0 and one
row to read, the multi-byte loader emits a sample of the out-of-window
second frame into channel 0 (channel lengths 2 and 1), where the claimed
per-frame policy selects exactly the first frame.  For 8-bit stereo bytes
`[10,20,30,40]` with start 1, the loader counts samples rather than
frames, so channel 0 receives byte 20 (frame 0's right channel) instead
of the windowed second frame `(30,40)`. -/
theorem audio_window_not_frame_aligned :
    loadMulti 0 1 2 2 [1, 0, 2, 0, 3, 0, 4, 0] =
      [[1/32768, 3/32768], [2/32768]] ∧
    loadMulti 0 1 2 2 [1, 0, 2, 0, 3, 0, 4, 0] ≠
      [[1/32768], [2/32768]] ∧
    windowRows 0 1 [[(1 : ℚ)/32768, 2/32768], [3/32768, 4/32768]] 0 =
      [[1/32768, 2/32768]] ∧
    load8 1 2 2 [10, 20, 30, 40] =
      [[sample8ToFloat 20], [sample8ToFloat 30]] ∧
    load8 1 2 2 [10, 20, 30, 40] ≠
      [[sample8ToFloat 30], [sample8ToFloat 40]] ∧
    windowRows 1 2 [[(10 : ℕ), 20], [30, 40]] 0 = [[30, 40]] := by
  have hmulti : loadMulti 0 1 2 2 [1, 0, 2, 0, 3, 0, 4, 0] =
      [[1/32768, 3/32768], [2/32768]] := by
    simp only [loadMulti, List.replicate]
    rw [loadMultiGo]; norm_num [appendAt]
    rw [loadMultiGo]; norm_num [appendAt]
    rw [loadMultiGo]; norm_num [appendAt]
    rw [loadMultiGo]; norm_num [appendAt]
    rw [loadMultiGo]; norm_num [appendAt]
    rw [loadMultiGo]; norm_num [appendAt]
    rw [loadMultiGo]
    norm_num [appendAt, show ((2 : ℕ) &&& 255) = 2 from by decide,
      show ((3 : ℕ) &&& 255) = 3 from by decide]
    rw [loadMultiGo]
    norm_num
  have h8 : load8 1 2 2 [10, 20, 30, 40] =
      [[sample8ToFloat 20], [sample8ToFloat 30]] := by
    norm_num [load8, load8Go, appendAt, List.replicate]
  refine ⟨hmulti, ?_, ?_, h8, ?_, ?_⟩
  · rw [hmulti]
    simp
  · norm_num [windowRows]
  · rw [h8]
    norm_num [sample8ToFloat]
  · norm_num [windowRows]

/-- C8 counterexample: the selected-channel index -1 with two channels is
out of bounds for the claim, yet the combiner succeeds and selects the
last channel (Python negative indexing) instead of failing with
`IndexOutOfRange`. -/
theorem selector_negative_accepted :
    weightedAverageChannels (some (-1)) [] [[1], [2]] [] = .ok [1] := by
  norm_num [weightedAverageChannels, resolveWeights, pySet,
    copyListAndForceLength, weightedLoop, rowSum, normalizeValue,
    List.range_succ, List.set]

/-- C8 amended: an explicitly selected channel index `≥ len(channels)`
fails with `IndexOutOfRange`; a negative index is not range-checked — one
below `-len(channels)` fails with a plain `IndexError` from the one-hot
assignment, while other negative indices select from the end. -/
theorem selector_range_check (sel : ℤ) (storedWeights : List ℚ)
    (channels : List (List ℚ)) (channelRanges : List (Option (List ℚ))) :
    (sel ≥ (channels.length : ℤ) →
      weightedAverageChannels (some sel) storedWeights channels
        channelRanges = .error (.indexOutOfRange sel)) ∧
    (sel < -(channels.length : ℤ) →
      weightedAverageChannels (some sel) storedWeights channels
        channelRanges = .error .indexError) := by
  constructor
  · intro hge
    simp [weightedAverageChannels, resolveWeights, hge]
  · intro hlt
    have hneg : sel < 0 := by
      have : (0 : ℤ) ≤ (channels.length : ℤ) := Int.natCast_nonneg _
      omega
    have hnge : ¬ sel ≥ (channels.length : ℤ) := by omega
    have hcond : ¬ ((0 : ℤ) ≤ sel + (channels.length : ℤ)) := by omega
    simp [weightedAverageChannels, resolveWeights, pySet, hnge, hneg, hcond]

/-- Witness for C8 (amended) at index 5 against one channel and at index
-9 against one channel. -/
theorem selector_range_check_witness :
    ((5 : ℤ) ≥ (([[(1 : ℚ)]] : List (List ℚ)).length : ℤ) ∧
      weightedAverageChannels (some 5) [] [[(1 : ℚ)]] [] =
        .error (.indexOutOfRange 5)) ∧
    ((-9 : ℤ) < -(([[(1 : ℚ)]] : List (List ℚ)).length : ℤ) ∧
      weightedAverageChannels (some (-9)) [] [[(1 : ℚ)]] [] =
        .error .indexError) :=
  ⟨⟨by decide, (selector_range_check 5 [] [[(1 : ℚ)]] []).1 (by decide)⟩,
   ⟨by decide, (selector_range_check (-9) [] [[(1 : ℚ)]] []).2 (by decide)⟩⟩

/-- A concrete session in state AwaitingAck with an attached transport
that answers `NO` instead of `OVER`. -/
def ackSessionNO : Session :=
  { serPresent := true, serResponse := [78, 79], printWriteLog := false,
    generateWriteLog := true, writeLog := [], needsFinalOver := true,
    deviceWrites := [] }

/-- A concrete session in state AwaitingAck with an attached transport
that answers `OVER`. -/
def ackSessionOVER : Session :=
  { serPresent := true, serResponse := [79, 86, 69, 82],
    printWriteLog := false, generateWriteLog := true, writeLog := [],
    needsFinalOver := true, deviceWrites := [] }

/-- C1 counterexample: a session in state AwaitingAck whose transport
answers `NO` fails with the timeout error carrying the received bytes, but
the session does NOT stay in AwaitingAck: `_needsFinalOver` was already
cleared before the read, so `needsFinalOver()` is false afterwards. -/
theorem sendOver_failure_leaves_idle :
    ackSessionNO.needsFinalOver = true ∧
    sendOverWaitForOver ackSessionNO =
      .error ([78, 79],
        { ackSessionNO with
          needsFinalOver := false
          writeLog := OVER_W
          deviceWrites := [OVER_W] }) := by
  decide

/-- C1 amended: from state AwaitingAck with an attached transport, the
round-trip succeeds when the transport answers exactly `OVER` and fails
with the timeout error carrying the actually-received bytes otherwise; in
both outcomes the stored pending-acknowledgment flag ends up false
(cleared before the read), so a failure does not leave
`needsFinalOver() == true`. -/
theorem sendOver_ack_behavior (s : Session)
    (hack : s.needsFinalOver = true) (hser : s.serPresent = true) :
    (s.serResponse.take 4 = OVER_R →
      ∃ s2, sendOverWaitForOver s = .ok s2 ∧ s2.needsFinalOver = false) ∧
    (s.serResponse.take 4 ≠ OVER_R →
      ∃ s2, sendOverWaitForOver s = .error (s.serResponse.take 4, s2) ∧
        s2.needsFinalOver = false) := by
  constructor
  · intro heq
    refine ⟨writeHandler { s with needsFinalOver := false } OVER_W, ?_, ?_⟩
    · simp [sendOverWaitForOver, readBytes, writeHandler, hser, OVER_R] at heq ⊢
      simp [heq]
    · simp [writeHandler]
  · intro hne
    refine ⟨writeHandler { s with needsFinalOver := false } OVER_W, ?_, ?_⟩
    · simp only [sendOverWaitForOver, readBytes, writeHandler]
      simp only [hser]
      simp [OVER_R] at hne ⊢
      simp [hne]
    · simp [writeHandler]

/-- Witness for C1 (amended) at a concrete AwaitingAck session whose
transport answers `OVER`, and one whose transport answers `NO`. -/
theorem sendOver_ack_behavior_witness :
    (ackSessionOVER.needsFinalOver = true ∧
      ackSessionOVER.serPresent = true ∧
      (ackSessionOVER.serResponse.take 4 = OVER_R →
        ∃ s2, sendOverWaitForOver ackSessionOVER = .ok s2 ∧
          s2.needsFinalOver = false)) ∧
    (ackSessionNO.needsFinalOver = true ∧
      ackSessionNO.serPresent = true ∧
      (ackSessionNO.serResponse.take 4 ≠ OVER_R →
        ∃ s2, sendOverWaitForOver ackSessionNO =
          .error (ackSessionNO.serResponse.take 4, s2) ∧
          s2.needsFinalOver = false)) :=
  ⟨⟨rfl, rfl, (sendOver_ack_behavior ackSessionOVER rfl rfl).1⟩,
   ⟨rfl, rfl, (sendOver_ack_behavior ackSessionNO rfl rfl).2⟩⟩

/-- Helper for C9: with no transport attached, the command loop always
succeeds, never writes to the device, and logs every byte. -/
theorem writeCommands_noTransport (cmds : List (List ℕ)) :
    ∀ s : Session, s.serPresent = false → s.generateWriteLog = true →
      ∃ s2, writeCommands s cmds = .ok s2 ∧
        s2.deviceWrites = s.deviceWrites ∧
        s2.writeLog = s.writeLog ++ cmds.flatten ∧
        s2.serPresent = false ∧ s2.generateWriteLog = true := by
  induction cmds with
  | nil =>
    intro s h1 h2
    exact ⟨s, rfl, rfl, by simp, h1, h2⟩
  | cons line rest ih =>
    intro s h1 h2
    by_cases hov : line = OVER_W
    · subst hov
      have hso : sendOverWaitForOver s =
          .ok (writeHandler { s with needsFinalOver := false } OVER_W) := by
        simp [sendOverWaitForOver, readBytes, writeHandler, h1]
      obtain ⟨s2, hrun, hdev, hlog, hp, hg⟩ :=
        ih (writeHandler { s with needsFinalOver := false } OVER_W)
          (by simp [writeHandler, h1]) (by simp [writeHandler, h2])
      refine ⟨s2, ?_, ?_, ?_, hp, hg⟩
      · simp only [writeCommands, if_pos rfl, hso]
        exact hrun
      · rw [hdev]
        simp [writeHandler, h1]
      · rw [hlog]
        simp [writeHandler, h2, List.append_assoc]
    · have hfields : ∀ s1 : Session,
          s1 = (if line.head? = some 90 then
            { s with needsFinalOver := true } else s) →
          s1.serPresent = false ∧ s1.generateWriteLog = true ∧
          s1.writeLog = s.writeLog ∧ s1.deviceWrites = s.deviceWrites := by
        intro s1 hs1
        rw [hs1]
        split <;> exact ⟨h1, h2, rfl, rfl⟩
      obtain ⟨ha, hb, hc, hd⟩ := hfields _ rfl
      obtain ⟨s2, hrun, hdev, hlog, hp, hg⟩ :=
        ih (writeHandler (if line.head? = some 90 then
          { s with needsFinalOver := true } else s) line)
          (by simp [writeHandler, ha]) (by simp [writeHandler, hb])
      refine ⟨s2, ?_, ?_, ?_, hp, hg⟩
      · simp only [writeCommands, if_neg hov]
        exact hrun
      · rw [hdev]
        simp [writeHandler, ha, hd]
      · rw [hlog]
        simp [writeHandler, hb, hc, List.append_assoc]

/-- C9: with no transport (`portname None`), a low-level command write
changes no device state but still appends the exact command bytes to the
write log; the acknowledgment round-trip never raises (the empty read's
token mismatch is not an error without a transport); and a whole command
loop over any command list succeeds as a device no-op while logging every
byte that would have been sent. -/
theorem noTransport_noop (s : Session) (line : List ℕ)
    (cmds : List (List ℕ)) (hser : s.serPresent = false)
    (hlog : s.generateWriteLog = true) :
    (writeHandler s line).deviceWrites = s.deviceWrites ∧
    (writeHandler s line).writeLog = s.writeLog ++ line ∧
    sendOverWaitForOver s =
      .ok (writeHandler { s with needsFinalOver := false } OVER_W) ∧
    ∃ s2, writeCommands s cmds = .ok s2 ∧
      s2.deviceWrites = s.deviceWrites ∧
      s2.writeLog = s.writeLog ++ cmds.flatten := by
  refine ⟨by simp [writeHandler, hser], by simp [writeHandler, hlog],
    by simp [sendOverWaitForOver, readBytes, writeHandler, hser], ?_⟩
  obtain ⟨s2, hrun, hdev, hl, _, _⟩ :=
    writeCommands_noTransport cmds s hser hlog
  exact ⟨s2, hrun, hdev, hl⟩

/-- A concrete session with no transport attached and write-logging on. -/
def dryRunSession : Session :=
  { serPresent := false, serResponse := [], printWriteLog := false,
    generateWriteLog := true, writeLog := [], needsFinalOver := false,
    deviceWrites := [] }

/-- Witness for C9 at a concrete no-transport session, a concrete command
and a concrete command list (a Z-command followed by `OVER\r\n`). -/
theorem noTransport_noop_witness :
    dryRunSession.serPresent = false ∧
    dryRunSession.generateWriteLog = true ∧
    ((writeHandler dryRunSession [88, 13, 10]).deviceWrites =
        dryRunSession.deviceWrites ∧
      (writeHandler dryRunSession [88, 13, 10]).writeLog =
        dryRunSession.writeLog ++ [88, 13, 10] ∧
      sendOverWaitForOver dryRunSession =
        .ok (writeHandler { dryRunSession with needsFinalOver := false }
          OVER_W) ∧
      ∃ s2, writeCommands dryRunSession
          [[90, 48, 48, 48, 48, 48, 13, 10], OVER_W] = .ok s2 ∧
        s2.deviceWrites = dryRunSession.deviceWrites ∧
        s2.writeLog = dryRunSession.writeLog ++
          [[90, 48, 48, 48, 48, 48, 13, 10], OVER_W].flatten) :=
  ⟨rfl, rfl, noTransport_noop dryRunSession [88, 13, 10]
    [[90, 48, 48, 48, 48, 48, 13, 10], OVER_W] rfl rfl⟩

/-- C10: after any call to `setLoadParameters`, the stored `maxRowsToRead`
and `maxRowsToWrite` stay at most 4096 (given they were, as the defaults
are): an explicit value above 4096 is silently clamped to 4096, the
sentinel -1 is replaced by 4096, and `None` leaves the stored field
unchanged. -/
theorem setLoadParameters_capacity (p : LoadParams)
    (srr mrw mrr : Option ℤ) (dsa : Option Bool) (sm : Option ℚ)
    (cr : Option (List (Option (List ℚ)))) (cs : Option ℤ)
    (cw : Option (List ℚ)) (hdr : Option ℤ) (dp : Option Bool)
    (hread : p.maxRowsToRead ≤ 4096) (hwrite : p.maxRowsToWrite ≤ 4096) :
    (setLoadParameters p srr mrw mrr dsa sm cr cs cw hdr dp).maxRowsToRead
      ≤ 4096 ∧
    (setLoadParameters p srr mrw mrr dsa sm cr cs cw hdr dp).maxRowsToWrite
      ≤ 4096 ∧
    (mrr = none →
      (setLoadParameters p srr mrw mrr dsa sm cr cs cw hdr dp).maxRowsToRead
        = p.maxRowsToRead) ∧
    (mrw = none →
      (setLoadParameters p srr mrw mrr dsa sm cr cs cw hdr dp).maxRowsToWrite
        = p.maxRowsToWrite) ∧
    (∀ v : ℤ, mrr = some v → 4096 < v →
      (setLoadParameters p srr mrw mrr dsa sm cr cs cw hdr dp).maxRowsToRead
        = 4096) ∧
    (∀ v : ℤ, mrw = some v → 4096 < v →
      (setLoadParameters p srr mrw mrr dsa sm cr cs cw hdr dp).maxRowsToWrite
        = 4096) ∧
    (mrr = some (-1) →
      (setLoadParameters p srr mrw mrr dsa sm cr cs cw hdr dp).maxRowsToRead
        = 4096) ∧
    (mrw = some (-1) →
      (setLoadParameters p srr mrw mrr dsa sm cr cs cw hdr dp).maxRowsToWrite
        = 4096) := by
  cases mrr <;> cases mrw <;>
    simp_all [setLoadParameters, AUTO_DETECT, MAX_SRAM_SAMPLES] <;>
    split_ifs <;>
    omega

/-- Witness for C10: from the constructor defaults, an explicit 9999 for
`maxRowsToWrite` and the -1 sentinel for `maxRowsToRead`. -/
theorem setLoadParameters_capacity_witness :
    initParams.maxRowsToRead ≤ 4096 ∧ initParams.maxRowsToWrite ≤ 4096 ∧
    ((setLoadParameters initParams none (some 9999) (some (-1)) none none
        none none none none none).maxRowsToRead ≤ 4096 ∧
      (setLoadParameters initParams none (some 9999) (some (-1)) none none
        none none none none none).maxRowsToWrite ≤ 4096 ∧
      (some (-1) = (none : Option ℤ) →
        (setLoadParameters initParams none (some 9999) (some (-1)) none
          none none none none none none).maxRowsToRead =
          initParams.maxRowsToRead) ∧
      (some 9999 = (none : Option ℤ) →
        (setLoadParameters initParams none (some 9999) (some (-1)) none
          none none none none none none).maxRowsToWrite =
          initParams.maxRowsToWrite) ∧
      (∀ v : ℤ, some (-1) = some v → 4096 < v →
        (setLoadParameters initParams none (some 9999) (some (-1)) none
          none none none none none none).maxRowsToRead = 4096) ∧
      (∀ v : ℤ, some 9999 = some v → 4096 < v →
        (setLoadParameters initParams none (some 9999) (some (-1)) none
          none none none none none none).maxRowsToWrite = 4096) ∧
      (some (-1) = some (-1 : ℤ) →
        (setLoadParameters initParams none (some 9999) (some (-1)) none
          none none none none none none).maxRowsToRead = 4096) ∧
      (some (9999 : ℤ) = some (-1) →
        (setLoadParameters initParams none (some 9999) (some (-1)) none
          none none none none none none).maxRowsToWrite = 4096)) :=
  ⟨by decide, by decide,
    setLoadParameters_capacity initParams none (some 9999) (some (-1))
      none none none none none none none (by decide) (by decide)⟩

end AWG
